import Mathlib

/-!
Shallow embedding of the go-logger repository (package logger, file
src/logger/logger.go) and proofs about its specification claims.

Modelling conventions:
* Go strings are Lean String values (sequences of Char); the ANSI pattern
  and all escape processing are character-exact.
* Nondeterministic runtime inputs (the clock reading used for the RFC3339
  timestamp, and the caller file and line returned by runtime.Caller) are
  threaded explicitly through an Env value: the formatter field receives
  the timestamp string as its first argument.
* The ANSI wrapping done by the fatih/color package is modelled with color
  output always enabled (the library call path that produces escape
  sequences); Log strips them when the color flag is false, exactly as the
  source does.
* The output sink (io.Writer) is modelled as a byte buffer together with a
  flag saying whether writes succeed; fmt.Fprintln appends the rendered
  string plus a newline and its error result is discarded by the source.
-/

/-- LogLevel: the five constants LevelDebug .. LevelFatal from the source
(iota-numbered 0..4). -/
inductive LogLevel where
  | debug
  | info
  | warn
  | error
  | fatal
deriving DecidableEq, Repr

/-- Numeric value of a level, as assigned by iota in the source. -/
def LogLevel.toNat : LogLevel → Nat
  | .debug => 0
  | .info => 1
  | .warn => 2
  | .error => 3
  | .fatal => 4

/-- LogLevel.String() from the source: the lowercase level name. -/
def LogLevel.str : LogLevel → String
  | .debug => "debug"
  | .info => "info"
  | .warn => "warn"
  | .error => "error"
  | .fatal => "fatal"

/-- Uppercase level name chosen by the switch in defaultFormatter. -/
def levelName : LogLevel → String
  | .debug => "DEBUG"
  | .info => "INFO"
  | .warn => "WARN"
  | .error => "ERROR"
  | .fatal => "FATAL"

/-- ANSI SGR code of the per-level color chosen by the switch in
defaultFormatter (FgHiCyan 96, FgHiGreen 92, FgHiYellow 93, FgHiRed 91,
FgHiMagenta 95, as defined by the fatih/color package). -/
def levelCode : LogLevel → String
  | .debug => "96"
  | .info => "92"
  | .warn => "93"
  | .error => "91"
  | .fatal => "95"

/-- LogFields: the struct of optional string attributes from the source. -/
structure LogFields where
  method : String
  path : String
  status : String
  size : String
  latency : String
  callerInfo : String
deriving DecidableEq, Repr

/-- NewLogFields from the source: builds a LogFields with empty callerInfo. -/
def NewLogFields (method path status size latency : String) : LogFields :=
  ⟨method, path, status, size, latency, ""⟩

/-- Runtime environment of one Log call: the clock reading already
formatted as RFC3339 (time.Now().Format(time.RFC3339)) and the result of
runtime.Caller(2) (source file path and line of the call site). -/
structure Env where
  now : String
  callerFile : String
  callerLine : Nat
deriving DecidableEq, Repr

/-- Wrapping performed by color.New(attr).Sprint / Sprintf of the
fatih/color package with color output enabled: the SGR set sequence, the
payload, then the reset sequence. -/
def colorWrap (code : String) (s : String) : String :=
  "\x1b[" ++ code ++ "m" ++ s ++ "\x1b[0m"

/-- Character class [0-9;] of the strip pattern. -/
def isParamChar (c : Char) : Bool :=
  c.isDigit || c = ';'

/-- Character class [mGK] of the strip pattern. -/
def isFinalChar (c : Char) : Bool :=
  c = 'm' || c = 'G' || c = 'K'

/-- Scanner state for the single left-to-right pass that implements
regexp.MustCompile of the pattern ESC LBRACKET [0-9;]* [mGK] followed by
ReplaceAllString with the empty string. norm: outside any candidate
match; esc: just after an ESC; csi ps: after ESC LBRACKET and the
parameter characters ps. A candidate is abandoned (and its characters
emitted verbatim) exactly when a character fits neither class, which
matches the leftmost-first semantics of the Go regexp engine: no match
can start inside an abandoned candidate because none of its characters
other than a later ESC can begin the pattern. -/
inductive StripState where
  | norm
  | esc
  | csi (ps : List Char)

/-- One pass of the replace-all of stripColors over the character list. -/
def stripRun : StripState → List Char → List Char
  | .norm, [] => []
  | .esc, [] => ['\x1b']
  | .csi ps, [] => '\x1b' :: '[' :: ps
  | .norm, c :: cs =>
      if c = '\x1b' then stripRun .esc cs else c :: stripRun .norm cs
  | .esc, c :: cs =>
      if c = '[' then stripRun (.csi []) cs
      else if c = '\x1b' then '\x1b' :: stripRun .esc cs
      else '\x1b' :: c :: stripRun .norm cs
  | .csi ps, c :: cs =>
      if isFinalChar c then stripRun .norm cs
      else if isParamChar c then stripRun (.csi (ps ++ [c])) cs
      else if c = '\x1b' then ('\x1b' :: '[' :: ps) ++ stripRun .esc cs
      else ('\x1b' :: '[' :: ps ++ [c]) ++ stripRun .norm cs

/-- stripColors from the source: remove every substring matching
ESC LBRACKET [0-9;]* [mGK]. -/
def stripColors (s : String) : String :=
  ⟨stripRun .norm s.data⟩

/-- Does a CSI escape match of the strip pattern begin at the head of the
list? This is the declarative reading of the regular expression. -/
def matchAt : List Char → Bool
  | '\x1b' :: '[' :: cs =>
      match cs.dropWhile isParamChar with
      | d :: _ => isFinalChar d
      | [] => false
  | _ => false

/-- Does the list contain a CSI escape match anywhere? -/
def hasCSI : List Char → Bool
  | [] => false
  | c :: cs => matchAt (c :: cs) || hasCSI cs

/-- Model of strings.Join with a separator (used by the formatter via
strings.Join(components, " ")). -/
def joinSep (sep : String) : List String → String
  | [] => ""
  | [x] => x
  | x :: y :: xs => x ++ sep ++ joinSep sep (y :: xs)

/-- Optional method-and-path component of defaultFormatter: appended
only when both Method and Path are non-empty, wrapped in FgHiBlue (94). -/
def methodPathGroup (fields : LogFields) : List (String × String) :=
  if fields.method ≠ "" ∧ fields.path ≠ "" then
    [("94", fields.method ++ " " ++ fields.path)] else []

/-- Optional status component of defaultFormatter (FgHiGreen, 92). -/
def statusGroup (fields : LogFields) : List (String × String) :=
  if fields.status ≠ "" then [("92", fields.status)] else []

/-- Optional size component of defaultFormatter (FgHiYellow, 93). -/
def sizeGroup (fields : LogFields) : List (String × String) :=
  if fields.size ≠ "" then [("93", fields.size)] else []

/-- Optional latency component of defaultFormatter (FgHiMagenta, 95). -/
def latencyGroup (fields : LogFields) : List (String × String) :=
  if fields.latency ≠ "" then [("95", fields.latency)] else []

/-- Components assembled by defaultFormatter, as pairs of (SGR color
code, plain text); the rendered component is colorWrap applied to the
pair. Order and inclusion conditions follow the source: level tag,
timestamp, method and path (only when both are non-empty), status, size,
latency, a dash, the message, a dash, the caller info. -/
def defaultPieces (now : String) (level : LogLevel) (message : String)
    (fields : LogFields) : List (String × String) :=
  [(levelCode level, "[" ++ levelName level ++ "]"), ("97", now)]
  ++ methodPathGroup fields
  ++ statusGroup fields
  ++ sizeGroup fields
  ++ latencyGroup fields
  ++ [("97", "-"), ("36", message), ("97", "-"), ("94", fields.callerInfo)]

/-- defaultFormatter from the source: the colorized components joined by
single spaces. -/
def defaultFormatter (now : String) (level : LogLevel) (message : String)
    (fields : LogFields) : String :=
  joinSep " " ((defaultPieces now level message fields).map
    (fun p => colorWrap p.1 p.2))

/-- Hexadecimal digit characters produced by the Go encoding/json
escaper (lowercase). -/
def hexDigit (n : Nat) : Char :=
  if n < 10 then Char.ofNat (48 + n) else Char.ofNat (87 + n)

/-- Escaping of one character performed by Go encoding/json string
encoding (with the default HTML escaping of json.Marshal): quote,
backslash, the three HTML-relevant characters, control characters below
U+0020 (with the dedicated forms for newline, carriage return and tab),
and the line separators U+2028 and U+2029. -/
def goJsonEscapeChar (c : Char) : List Char :=
  if c = '"' then ['\\', '"']
  else if c = '\\' then ['\\', '\\']
  else if c = '\n' then ['\\', 'n']
  else if c = '\r' then ['\\', 'r']
  else if c = '\t' then ['\\', 't']
  else if c.toNat < 32 then
    ['\\', 'u', '0', '0', hexDigit (c.toNat / 16), hexDigit (c.toNat % 16)]
  else if c = '<' then ['\\', 'u', '0', '0', '3', 'c']
  else if c = '>' then ['\\', 'u', '0', '0', '3', 'e']
  else if c = '&' then ['\\', 'u', '0', '0', '2', '6']
  else if c = '\u2028' then ['\\', 'u', '2', '0', '2', '8']
  else if c = '\u2029' then ['\\', 'u', '2', '0', '2', '9']
  else [c]

/-- JSON rendering of a Go string value: quoted and escaped. -/
def goJsonString (s : String) : String :=
  ⟨'"' :: s.data.flatMap goJsonEscapeChar ++ ['"']⟩

/-- The six field attributes with the key names declared by the json
struct tags of LogFields, in struct declaration order. -/
def declaredPairs (f : LogFields) : List (String × String) :=
  [("method", f.method), ("path", f.path), ("status", f.status),
   ("size", f.size), ("latency", f.latency), ("caller_info", f.callerInfo)]

/-- The attributes that json.Marshal keeps: omitempty drops the empty
ones, declaration order is preserved. -/
def presentFields (f : LogFields) : List (String × String) :=
  (declaredPairs f).filter (fun p => p.2 ≠ "")

/-- Rendering of one JSON object member. -/
def jsonMember (p : String × String) : String :=
  goJsonString p.1 ++ ":" ++ goJsonString p.2

/-- Marshaling of the LogFields struct by encoding/json: an object of
the present attributes. -/
def jsonFields (f : LogFields) : String :=
  "\x7b" ++ joinSep "," ((presentFields f).map jsonMember) ++ "\x7d"

/-- JSONFormatter from the source: json.Marshal of the map with entries
fields, level, message, timestamp. Go marshals map keys in sorted order,
which for these four keys is fields, level, message, timestamp. -/
def JSONFormatter (now : String) (level : LogLevel) (message : String)
    (fields : LogFields) : String :=
  "\x7b\"fields\":" ++ jsonFields fields
  ++ ",\"level\":" ++ goJsonString level.str
  ++ ",\"message\":" ++ goJsonString message
  ++ ",\"timestamp\":" ++ goJsonString now
  ++ "\x7d"

/-- Model of strings.Split(s, SLASH) at the character level: Go splits on
every separator occurrence and yields the (possibly empty) pieces; the
empty string yields one empty piece. -/
def splitSlash : List Char → List (List Char)
  | [] => [[]]
  | c :: cs =>
      if c = '/' then [] :: splitSlash cs
      else
        match splitSlash cs with
        | [] => [[c]]
        | p :: ps => (c :: p) :: ps

/-- The path-shortening step of Log: keep at most the last three slash
separated segments (fileParts[len(fileParts)-3:] when there are more
than three). -/
def shortenParts (file : String) : List (List Char) :=
  if (splitSlash file.data).length > 3 then
    (splitSlash file.data).drop ((splitSlash file.data).length - 3)
  else splitSlash file.data

/-- The caller token built by Log from runtime.Caller data:
fmt.Sprintf of the shortened path, a colon, and the line number. -/
def formatCaller (env : Env) : String :=
  joinSep "/" ((shortenParts env.callerFile).map (fun p => (⟨p⟩ : String)))
    ++ ":" ++ Nat.repr env.callerLine

/-- The caller-info resolution step of Log: when fields.CallerInfo is
empty it is replaced by the captured and shortened call site, otherwise
the fields pass through unchanged. -/
def resolveCaller (env : Env) (fields : LogFields) : LogFields :=
  if fields.callerInfo = "" then
    { fields with callerInfo := formatCaller env }
  else fields

/-- Model of strings.ReplaceAll(msg, newline, space) from Log. -/
def replaceNewlines (msg : String) : String :=
  ⟨msg.data.map (fun c => if c = '\n' then ' ' else c)⟩

/-- Logger struct from the source. The sink held by the out field is
modelled as a handle (a number identifying the io.Writer); the formatter
receives the RFC3339 clock reading as its explicit first argument. -/
structure Logger where
  name : String
  level : LogLevel
  out : Nat
  color : Bool
  formatter : String → LogLevel → String → LogFields → String

/-- NewLogger from the source: minimum level Info, standard output
(handle 0), color enabled, the default text formatter. -/
def NewLogger (name : String) : Logger :=
  { name := name, level := .info, out := 0, color := true,
    formatter := defaultFormatter }

/-- SetLevel from the source. -/
def SetLevel (l : Logger) (level : LogLevel) : Logger :=
  { l with level := level }

/-- SetOutput from the source (the new sink handle). -/
def SetOutput (l : Logger) (out : Nat) : Logger :=
  { l with out := out }

/-- SetColor from the source. -/
def SetColor (l : Logger) (enabled : Bool) : Logger :=
  { l with color := enabled }

/-- SetFormatter from the source. -/
def SetFormatter (l : Logger)
    (fn : String → LogLevel → String → LogFields → String) : Logger :=
  { l with formatter := fn }

/-- The string Log hands to the mutex-guarded write, for a call that
passed the level filter: caller resolution, newline replacement, the
configured formatter, and the strip step when color is disabled. -/
def renderLine (l : Logger) (env : Env) (level : LogLevel) (msg : String)
    (fields : LogFields) : String :=
  let fields := resolveCaller env fields
  let msg := replaceNewlines msg
  let output := l.formatter env.now level msg fields
  if l.color then output else stripColors output

/-- Log from the source, observed as the list of strings written to the
sink: empty when the level is below the minimum, otherwise the single
line produced by fmt.Fprintln (the rendered string plus a newline). -/
def logWrites (l : Logger) (env : Env) (level : LogLevel) (msg : String)
    (fields : LogFields) : List String :=
  if level.toNat < l.level.toNat then []
  else [renderLine l env level msg fields ++ "\n"]

/-- Sink: an io.Writer modelled as a buffer plus a flag telling whether
writes succeed. A failed write leaves the buffer unchanged and reports
an error, which the source discards. -/
structure Sink where
  ok : Bool
  buf : String
deriving DecidableEq, Repr

/-- One write to the sink; the Bool result is the would-be error
indicator of fmt.Fprintln (false means an error occurred), which Log
ignores. -/
def writeSink (s : Sink) (line : String) : Sink :=
  if s.ok then { s with buf := s.buf ++ line } else s

/-- Log from the source as a state transformer on the logger and the
sink currently referenced by its out field. Log assigns no field of the
receiver and returns nothing, so the Logger component always passes
through; the write error of fmt.Fprintln is discarded. -/
def runLog (l : Logger) (s : Sink) (env : Env) (level : LogLevel)
    (msg : String) (fields : LogFields) : Logger × Sink :=
  (l, (logWrites l env level msg fields).foldl writeSink s)

/-- Model of context.Context: an opaque value bag; LogCtx never inspects
it. -/
structure GoContext where
  values : List (String × String)
deriving DecidableEq, Repr

/-- LogCtx from the source: delegates to Log, ignoring the context. -/
def LogCtx (_ctx : GoContext) (l : Logger) (env : Env) (level : LogLevel)
    (msg : String) (fields : LogFields) : List String :=
  logWrites l env level msg fields

/-- The tokens appear in the string in the given order, each as a
contiguous substring, with arbitrary gaps between them. -/
def containsInOrder : List String → String → Prop
  | [], _ => True
  | t :: ts, s => ∃ a b : String, s = a ++ t ++ b ∧ containsInOrder ts b

/-- A string is ESC-free: it contains no U+001B character at all. -/
def noEsc (s : String) : Prop := '\x1b' ∉ s.data

/-- All six attributes of a LogFields value are ESC-free. -/
def noEscFields (f : LogFields) : Prop :=
  noEsc f.method ∧ noEsc f.path ∧ noEsc f.status ∧ noEsc f.size ∧
  noEsc f.latency ∧ noEsc f.callerInfo

/-- All characters of an SGR code string lie in the parameter class. -/
def allParam (code : String) : Prop := ∀ c ∈ code.data, isParamChar c

instance noEscDecidable (s : String) : Decidable (noEsc s) :=
  inferInstanceAs (Decidable ('\x1b' ∉ s.data))

instance allParamDecidable (code : String) : Decidable (allParam code) :=
  inferInstanceAs (Decidable (∀ c ∈ code.data, isParamChar c))

/-- Hexadecimal digit recognizer of the JSON escape decoder. -/
def isHexChar (c : Char) : Bool :=
  c.isDigit || ('a' ≤ c && c ≤ 'f') || ('A' ≤ c && c ≤ 'F')

/-- Numeric value of a hexadecimal digit character. -/
def hexVal (c : Char) : Nat :=
  if c.isDigit then c.toNat - 48
  else if 'a' ≤ c ∧ c ≤ 'f' then c.toNat - 87
  else if 'A' ≤ c ∧ c ≤ 'F' then c.toNat - 55
  else 0

/-- Decoder for the body of a JSON string literal: consumes characters
up to the closing quote, undoing the escapes, and returns the decoded
characters together with the input after the closing quote. -/
def parseJStringAux : List Char → Option (List Char × List Char)
  | [] => none
  | c :: cs =>
      if c = '"' then some ([], cs)
      else if c = '\\' then
        match cs with
        | [] => none
        | e :: cs2 =>
            if e = '"' then
              (parseJStringAux cs2).map (fun r => ('"' :: r.1, r.2))
            else if e = '\\' then
              (parseJStringAux cs2).map (fun r => ('\\' :: r.1, r.2))
            else if e = 'n' then
              (parseJStringAux cs2).map (fun r => ('\n' :: r.1, r.2))
            else if e = 'r' then
              (parseJStringAux cs2).map (fun r => ('\x0d' :: r.1, r.2))
            else if e = 't' then
              (parseJStringAux cs2).map (fun r => ('\t' :: r.1, r.2))
            else if e = 'u' then
              match cs2 with
              | h1 :: h2 :: h3 :: h4 :: cs3 =>
                  if isHexChar h1 && isHexChar h2 && isHexChar h3 &&
                      isHexChar h4 then
                    (parseJStringAux cs3).map (fun r =>
                      (Char.ofNat (4096 * hexVal h1 + 256 * hexVal h2 +
                        16 * hexVal h3 + hexVal h4) :: r.1, r.2))
                  else none
              | _ => none
            else none
      else (parseJStringAux cs).map (fun r => (c :: r.1, r.2))

/-- Parser for one JSON string literal (expects the opening quote). -/
def parseJString (cs : List Char) : Option (String × List Char) :=
  match cs with
  | c :: rest =>
      if c = '"' then (parseJStringAux rest).map (fun r => (⟨r.1⟩, r.2))
      else none
  | [] => none

/-- Parser for the members of a JSON object of string values, after the
opening brace: a possibly empty comma-separated list of
key-colon-value pairs followed by the closing brace. The fuel bounds
the number of members. -/
def parseMembers (fuel : Nat) (cs : List Char) :
    Option (List (String × String) × List Char) :=
  match cs with
  | [] => none
  | c :: rest =>
      if c = '\x7d' then some ([], rest)
      else
        match fuel with
        | 0 => none
        | fuel + 1 =>
            match parseJString (c :: rest) with
            | none => none
            | some (k, rest1) =>
                match rest1 with
                | ':' :: rest2 =>
                    match parseJString rest2 with
                    | none => none
                    | some (v, rest3) =>
                        match rest3 with
                        | ',' :: rest4 =>
                            match parseMembers fuel rest4 with
                            | none => none
                            | some (ms, rest5) => some ((k, v) :: ms, rest5)
                        | '\x7d' :: rest4 => some ([(k, v)], rest4)
                        | _ => none
                | _ => none

/-- Parser for the exact shape of a JSONFormatter entry: an object whose
first member is the key fields with an object of string values, followed
by the remaining string-valued members; returns the members of the
fields object together with the remaining top-level members. -/
def parseEntry (s : String) :
    Option (List (String × String) × List (String × String)) :=
  match s.data with
  | '\x7b' :: cs =>
      match parseJString cs with
      | some (k1, rest1) =>
          if k1 = "fields" then
            match rest1 with
            | ':' :: '\x7b' :: rest2 =>
                match parseMembers 7 rest2 with
                | some (fieldMembers, rest3) =>
                    match rest3 with
                    | ',' :: rest4 =>
                        match parseMembers 4 rest4 with
                        | some (topMembers, rest5) =>
                            if rest5 = [] then
                              some (fieldMembers, topMembers)
                            else none
                        | none => none
                    | _ => none
                | none => none
            | _ => none
          else none
      | none => none
  | _ => none

example : stripColors "\x1b[92mabc\x1b[0m" = "abc" := by decide

example : stripColors "\x1b[x" = "\x1b[x" := by decide

example : stripColors "\x1b\x1b[m[m" = "\x1b[m" := by decide

example : stripColors "\x1b[m" = "" := by decide

example : hasCSI ("\x1b[m").data = true := by decide

example : joinSep " " ["a", "b", "c"] = "a b c" := by rfl

example : formatCaller ⟨"", "a/b/c/d.go", 12⟩ = "b/c/d.go:12" := by decide

example : formatCaller ⟨"", "d.go", 7⟩ = "d.go:7" := by decide

example :
    JSONFormatter "T" .info "hi" (NewLogFields "" "/p" "200" "" "") =
    "\x7b\"fields\":\x7b\"path\":\"/p\",\"status\":\"200\"\x7d,\"level\":\"info\",\"message\":\"hi\",\"timestamp\":\"T\"\x7d" := by
  decide

lemma final_not_param {c : Char} (h : isFinalChar c = true) :
    isParamChar c = false := by
  have : (c = 'm' ∨ c = 'G') ∨ c = 'K' := by
    simpa [isFinalChar, decide_eq_true_eq] using h
  rcases this with (rfl | rfl) | rfl <;> decide

lemma param_not_final {c : Char} (h : isParamChar c = true) :
    isFinalChar c = false := by
  rcases hf : isFinalChar c with _ | _
  · rfl
  · rw [final_not_param hf] at h; exact absurd h (by decide)

lemma param_not_esc {c : Char} (h : isParamChar c = true) : c ≠ '\x1b' := by
  intro he; subst he; exact absurd h (by decide)

lemma stripRun_append_noEsc (l1 l2 : List Char) (h : '\x1b' ∉ l1) :
    stripRun .norm (l1 ++ l2) = l1 ++ stripRun .norm l2 := by
  induction l1 with
  | nil => simp
  | cons c cs ih =>
      have hc : ¬ (c = '\x1b') := fun e => h (by simp [e])
      rw [List.cons_append]
      simp only [stripRun, if_neg hc, List.cons_append]
      rw [ih (fun m => h (List.mem_cons_of_mem _ m))]

lemma stripRun_noEsc_fix (l : List Char) (h : '\x1b' ∉ l) :
    stripRun .norm l = l := by
  have := stripRun_append_noEsc l [] h
  simpa [stripRun] using this

lemma stripRun_csi_scan (ds : List Char) (f : Char) (l2 : List Char)
    (hds : ∀ c ∈ ds, isParamChar c) (hf : isFinalChar f = true) :
    ∀ ps, stripRun (.csi ps) (ds ++ f :: l2) = stripRun .norm l2 := by
  induction ds with
  | nil => intro ps; simp [stripRun, hf]
  | cons d ds ih =>
      intro ps
      have hd : isParamChar d := hds d (by simp)
      have hnf : isFinalChar d = false := param_not_final hd
      rw [List.cons_append]
      simp only [stripRun, hnf, hd]
      simp only [Bool.false_eq_true, if_false, if_true]
      exact ih (fun c hc => hds c (by simp [hc])) _

lemma stripRun_wrapOpen (code : List Char) (f : Char) (l2 : List Char)
    (hc : ∀ c ∈ code, isParamChar c) (hf : isFinalChar f = true) :
    stripRun .norm ('\x1b' :: '[' :: (code ++ f :: l2)) = stripRun .norm l2 := by
  have h1 : stripRun .norm ('\x1b' :: ('[' :: (code ++ f :: l2))) =
      stripRun .esc ('[' :: (code ++ f :: l2)) := by
    simp [stripRun]
  have h2 : stripRun .esc ('[' :: (code ++ f :: l2)) =
      stripRun (.csi []) (code ++ f :: l2) := by
    simp [stripRun]
  rw [h1, h2, stripRun_csi_scan code f l2 hc hf]

lemma strip_colorWrap_append (code s : String) (rest : List Char)
    (hc : allParam code) (hs : noEsc s) :
    stripRun .norm ((colorWrap code s).data ++ rest) =
    s.data ++ stripRun .norm rest := by
  have hd : (colorWrap code s).data ++ rest =
      '\x1b' :: '[' :: (code.data ++ 'm' ::
        (s.data ++ ('\x1b' :: '[' :: (['0'] ++ 'm' :: rest)))) := by
    simp [colorWrap, String.data_append]
  rw [hd, stripRun_wrapOpen code.data 'm' _ hc (by decide)]
  rw [stripRun_append_noEsc s.data _ hs]
  rw [stripRun_wrapOpen ['0'] 'm' rest (by decide) (by decide)]

lemma data_mk (l : List Char) : (⟨l⟩ : String).data = l := rfl

lemma noEsc_append {a b : String} (ha : noEsc a) (hb : noEsc b) :
    noEsc (a ++ b) := by
  simp only [noEsc, String.data_append, List.mem_append]
  rintro (h | h)
  · exact ha h
  · exact hb h

lemma noEsc_joinSep (sep : String) (xs : List String) (hsep : noEsc sep)
    (h : ∀ x ∈ xs, noEsc x) : noEsc (joinSep sep xs) := by
  induction xs with
  | nil => intro hm; simp [joinSep] at hm
  | cons x xs ih =>
      cases xs with
      | nil => exact h x (by simp)
      | cons y ys =>
          have h1 : noEsc x := h x (by simp)
          have h2 : noEsc (joinSep sep (y :: ys)) :=
            ih (fun z hz => h z (List.mem_cons_of_mem _ hz))
          exact noEsc_append (noEsc_append h1 hsep) h2

lemma strip_joinSep (ps : List (String × String))
    (h : ∀ p ∈ ps, allParam p.1 ∧ noEsc p.2) :
    stripColors (joinSep " " (ps.map (fun p => colorWrap p.1 p.2))) =
    joinSep " " (ps.map Prod.snd) := by
  induction ps with
  | nil => rfl
  | cons p ps ih =>
      cases ps with
      | nil =>
          apply String.ext
          show stripRun .norm (colorWrap p.1 p.2).data = p.2.data
          have := strip_colorWrap_append p.1 p.2 []
            (h p (by simp)).1 (h p (by simp)).2
          simpa [stripRun] using this
      | cons q qs =>
          apply String.ext
          have ihd : stripRun .norm ((joinSep " "
              ((q :: qs).map (fun p => colorWrap p.1 p.2))).data) =
              (joinSep " " ((q :: qs).map Prod.snd)).data := by
            have := ih (fun z hz => h z (List.mem_cons_of_mem _ hz))
            exact congrArg String.data this
          show stripRun .norm ((colorWrap p.1 p.2 ++ " " ++
              joinSep " " ((q :: qs).map (fun p => colorWrap p.1 p.2))).data) =
            (p.2 ++ " " ++ joinSep " " ((q :: qs).map Prod.snd)).data
          rw [String.append_assoc, String.data_append,
            strip_colorWrap_append p.1 p.2 _ (h p (by simp)).1 (h p (by simp)).2,
            String.data_append]
          have hsd : (" " : String).data = [' '] := rfl
          rw [hsd, stripRun_append_noEsc [' '] _ (by decide), ihd]
          simp [String.data_append]

lemma hasCSI_cons_false {c : Char} {cs : List Char}
    (h : hasCSI (c :: cs) = false) :
    matchAt (c :: cs) = false ∧ hasCSI cs = false := by
  simpa [hasCSI] using h

lemma hasCSI_append_false {x y : List Char} (h : hasCSI (x ++ y) = false) :
    hasCSI y = false := by
  induction x with
  | nil => exact h
  | cons c cs ih =>
      rw [List.cons_append] at h
      exact ih (hasCSI_cons_false h).2

lemma dropWhile_append_all {p : Char → Bool} (ps rest : List Char)
    (h : ∀ x ∈ ps, p x) :
    List.dropWhile p (ps ++ rest) = List.dropWhile p rest := by
  induction ps with
  | nil => rfl
  | cons a as ih =>
      rw [List.cons_append, List.dropWhile_cons]
      simp only [h a (by simp), if_true]
      exact ih (fun x hx => h x (by simp [hx]))

lemma matchAt_full {ps : List Char} {c : Char} {cs : List Char}
    (hps : ∀ x ∈ ps, isParamChar x) (hc : isFinalChar c = true) :
    matchAt ('\x1b' :: '[' :: (ps ++ c :: cs)) = true := by
  have hd : (ps ++ c :: cs).dropWhile isParamChar = c :: cs := by
    rw [dropWhile_append_all ps _ hps, List.dropWhile_cons]
    simp [final_not_param hc]
  simp [matchAt, hd, hc]

lemma stripRun_fix_aux (l : List Char) :
    (hasCSI l = false → stripRun .norm l = l)
    ∧ (hasCSI ('\x1b' :: l) = false → stripRun .esc l = '\x1b' :: l)
    ∧ (∀ ps : List Char, (∀ x ∈ ps, isParamChar x) →
        hasCSI ('\x1b' :: '[' :: ps ++ l) = false →
        stripRun (.csi ps) l = '\x1b' :: '[' :: ps ++ l) := by
  induction l with
  | nil =>
      refine ⟨fun _ => rfl, fun _ => rfl, fun ps _ _ => ?_⟩
      simp [stripRun]
  | cons c cs ih =>
      obtain ⟨ihP, ihQ, ihR⟩ := ih
      refine ⟨?_, ?_, ?_⟩
      · intro h
        rcases eq_or_ne c '\x1b' with rfl | hc
        · have e : stripRun .norm ('\x1b' :: cs) = stripRun .esc cs := by
            simp [stripRun]
          rw [e, ihQ h]
        · simp only [stripRun, if_neg hc]
          rw [ihP (hasCSI_cons_false h).2]
      · intro h
        rcases eq_or_ne c '[' with rfl | hb
        · have e : stripRun .esc ('[' :: cs) = stripRun (.csi []) cs := by
            simp [stripRun]
          rw [e, ihR [] (by simp) (by simpa using h)]
          simp
        · rcases eq_or_ne c '\x1b' with rfl | he
          · have e : stripRun .esc ('\x1b' :: cs) =
                '\x1b' :: stripRun .esc cs := by
              simp [stripRun]
            rw [e, ihQ (hasCSI_cons_false h).2]
          · have e : stripRun .esc (c :: cs) =
                '\x1b' :: c :: stripRun .norm cs := by
              simp [stripRun, hb, he]
            have h2 : hasCSI cs = false :=
              (hasCSI_cons_false (hasCSI_cons_false h).2).2
            rw [e, ihP h2]
      · intro ps hps h
        cases hf : isFinalChar c with
        | true =>
            exfalso
            have hm : matchAt ('\x1b' :: '[' :: (ps ++ c :: cs)) = false :=
              (hasCSI_cons_false h).1
            rw [matchAt_full hps hf] at hm
            exact Bool.true_eq_false.mp hm
        | false =>
            cases hp : isParamChar c with
            | true =>
                have e : stripRun (.csi ps) (c :: cs) =
                    stripRun (.csi (ps ++ [c])) cs := by
                  simp [stripRun, hf, hp]
                have hps2 : ∀ x ∈ ps ++ [c], isParamChar x := by
                  intro x hx
                  rcases List.mem_append.mp hx with hx | hx
                  · exact hps x hx
                  · simp at hx; subst hx; exact hp
                have h2 : hasCSI ('\x1b' :: '[' :: (ps ++ [c]) ++ cs) = false := by
                  simpa [List.append_assoc] using h
                rw [e, ihR (ps ++ [c]) hps2 h2]
                simp
            | false =>
                have hshape : ('\x1b' :: '[' :: ps ++ c :: cs) =
                    ('\x1b' :: '[' :: ps) ++ (c :: cs) := by simp
                rcases eq_or_ne c '\x1b' with rfl | he
                · have e : stripRun (.csi ps) ('\x1b' :: cs) =
                      ('\x1b' :: '[' :: ps) ++ stripRun .esc cs := by
                    simp [stripRun, hf, hp]
                  have h2 : hasCSI ('\x1b' :: cs) = false := by
                    rw [hshape] at h
                    exact hasCSI_append_false h
                  rw [e, ihQ h2]
                · have e : stripRun (.csi ps) (c :: cs) =
                      ('\x1b' :: '[' :: ps ++ [c]) ++ stripRun .norm cs := by
                    simp [stripRun, hf, hp, he]
                  have h2 : hasCSI cs = false := by
                    rw [hshape] at h
                    exact (hasCSI_cons_false (hasCSI_append_false h)).2
                  rw [e, ihP h2]
                  simp

lemma stripRun_fix (l : List Char) (h : hasCSI l = false) :
    stripRun .norm l = l := (stripRun_fix_aux l).1 h

lemma replaceNewlines_no_newline (msg : String) :
    '\n' ∉ (replaceNewlines msg).data := by
  intro hm
  rw [replaceNewlines, data_mk] at hm
  obtain ⟨a, _, ha⟩ := List.mem_map.mp hm
  by_cases h : a = '\n'
  · simp [h] at ha
  · simp [h] at ha

lemma replaceNewlines_idem (msg : String) :
    replaceNewlines (replaceNewlines msg) = replaceNewlines msg := by
  apply String.ext
  simp only [replaceNewlines, data_mk, List.map_map]
  apply List.map_congr_left
  intro a _
  by_cases h : a = '\n' <;> simp [Function.comp, h]

/-- C6 counterexample: stripColors is not idempotent. In the string
ESC ESC LBRACKET m LBRACKET m, the single match is the middle
ESC LBRACKET m; removing it splices the leading ESC onto the trailing
LBRACKET m, forming a new escape sequence that a second application
removes. -/
theorem stripColors_not_idempotent :
    stripColors (stripColors "\x1b\x1b[m[m") ≠
      stripColors "\x1b\x1b[m[m" := by decide

/-- C6 amended: stripColors is a pure string transform, and applying it
to a string that is already free of ANSI CSI escape matches returns the
string unchanged; in particular it is idempotent on such strings. Full
idempotence fails, see the counterexample. -/
theorem stripColors_fix_of_matchFree (s : String)
    (h : hasCSI s.data = false) :
    stripColors s = s ∧ stripColors (stripColors s) = stripColors s := by
  have h1 : stripColors s = s := String.ext (stripRun_fix s.data h)
  exact ⟨h1, by rw [h1]; exact h1⟩

/-- Witness for the amended C6 theorem at a concrete escape-free string. -/
theorem stripColors_fix_of_matchFree_witness :
    hasCSI ("[INFO] hello".data) = false ∧
    (stripColors "[INFO] hello" = "[INFO] hello" ∧
     stripColors (stripColors "[INFO] hello") = stripColors "[INFO] hello") :=
  ⟨by decide, stripColors_fix_of_matchFree "[INFO] hello" (by decide)⟩

/-- C1: with minimum level L2, a Log call at any lower level L1 writes
nothing and leaves the sink untouched, independently of the runtime
environment (so no caller capture can influence anything); a call at any
level at or above the minimum writes exactly one line, the rendered
string followed by a newline. -/
theorem log_level_filtering (l : Logger) (L1 L2 : LogLevel) (msg : String)
    (fields : LogFields) (h12 : L1.toNat < L2.toNat) (hmin : l.level = L2) :
    (∀ env s, logWrites l env L1 msg fields = [] ∧
      (runLog l s env L1 msg fields).2 = s) ∧
    (∀ env L, l.level.toNat ≤ L.toNat →
      logWrites l env L msg fields =
        [renderLine l env L msg fields ++ "\n"]) := by
  constructor
  · intro env s
    have hlt : L1.toNat < l.level.toNat := by rw [hmin]; exact h12
    constructor
    · simp [logWrites, hlt]
    · simp [runLog, logWrites, hlt]
  · intro env L hL
    have hnl : ¬ (L.toNat < l.level.toNat) := not_lt.mpr hL
    simp [logWrites, hnl]

/-- Witness for C1 at a logger with minimum level Error. -/
theorem log_level_filtering_witness :
    LogLevel.info.toNat < LogLevel.error.toNat ∧
    (SetLevel (NewLogger "app") .error).level = .error ∧
    ((∀ env s, logWrites (SetLevel (NewLogger "app") .error) env .info "m"
        (NewLogFields "" "" "" "" "") = [] ∧
      (runLog (SetLevel (NewLogger "app") .error) s env .info "m"
        (NewLogFields "" "" "" "" "")).2 = s) ∧
    (∀ env L, (SetLevel (NewLogger "app") .error).level.toNat ≤ L.toNat →
      logWrites (SetLevel (NewLogger "app") .error) env L "m"
        (NewLogFields "" "" "" "" "") =
        [renderLine (SetLevel (NewLogger "app") .error) env L "m"
          (NewLogFields "" "" "" "" "") ++ "\n"])) :=
  ⟨by decide, rfl,
    log_level_filtering (SetLevel (NewLogger "app") .error) .info .error "m"
      (NewLogFields "" "" "" "" "") (by decide) rfl⟩

/-- C7: for a non-suppressed call, the emitted output is the same as if
the message had already had every newline replaced by a space (the
replacement happens before the formatter runs), and the replaced message
contains no newline character. -/
theorem newline_replacement (l : Logger) (env : Env) (lvl : LogLevel)
    (msg : String) (fields : LogFields)
    (hlev : l.level.toNat ≤ lvl.toNat) :
    logWrites l env lvl msg fields =
      logWrites l env lvl (replaceNewlines msg) fields ∧
    '\n' ∉ (replaceNewlines msg).data := by
  refine ⟨?_, replaceNewlines_no_newline msg⟩
  simp only [logWrites, renderLine, replaceNewlines_idem]

/-- Witness for C7 at a concrete message containing a newline. -/
theorem newline_replacement_witness :
    (NewLogger "app").level.toNat ≤ LogLevel.warn.toNat ∧
    (logWrites (NewLogger "app") ⟨"T", "f.go", 3⟩ .warn "a\nb"
        (NewLogFields "" "" "" "" "") =
      logWrites (NewLogger "app") ⟨"T", "f.go", 3⟩ .warn
        (replaceNewlines "a\nb") (NewLogFields "" "" "" "" "") ∧
    '\n' ∉ (replaceNewlines "a\nb").data) :=
  ⟨by decide,
    newline_replacement (NewLogger "app") ⟨"T", "f.go", 3⟩ .warn "a\nb"
      (NewLogFields "" "" "" "" "") (by decide)⟩

/-- C8: a non-Fatal logging call surfaces no error (its observable
result is only the unchanged logger and the sink): the logger component
is always returned unchanged, a failed write leaves the sink exactly as
it was (the error of fmt.Fprintln is discarded), and the logger state
after the call does not depend on whether the write succeeded. -/
theorem write_failure_ignored (l : Logger) (s s2 : Sink) (env : Env)
    (lvl : LogLevel) (msg : String) (fields : LogFields)
    (hnf : lvl ≠ .fatal) :
    (runLog l s env lvl msg fields).1 = l ∧
    (s.ok = false → (runLog l s env lvl msg fields).2 = s) ∧
    (runLog l s env lvl msg fields).1 = (runLog l s2 env lvl msg fields).1 := by
  refine ⟨rfl, ?_, rfl⟩
  intro hok
  simp only [runLog, logWrites]
  by_cases hlt : lvl.toNat < l.level.toNat
  · simp [hlt]
  · simp [hlt, writeSink, hok]

/-- Witness for C8 at a concrete failing sink. -/
theorem write_failure_ignored_witness :
    LogLevel.error ≠ LogLevel.fatal ∧
    ((runLog (NewLogger "app") ⟨false, ""⟩ ⟨"T", "f.go", 3⟩ .error "m"
        (NewLogFields "" "" "" "" "")).1 = NewLogger "app" ∧
    ((⟨false, ""⟩ : Sink).ok = false →
      (runLog (NewLogger "app") ⟨false, ""⟩ ⟨"T", "f.go", 3⟩ .error "m"
        (NewLogFields "" "" "" "" "")).2 = ⟨false, ""⟩) ∧
    (runLog (NewLogger "app") ⟨false, ""⟩ ⟨"T", "f.go", 3⟩ .error "m"
        (NewLogFields "" "" "" "" "")).1 =
      (runLog (NewLogger "app") ⟨true, "x"⟩ ⟨"T", "f.go", 3⟩ .error "m"
        (NewLogFields "" "" "" "" "")).1) :=
  ⟨by decide,
    write_failure_ignored (NewLogger "app") ⟨false, ""⟩ ⟨true, "x"⟩
      ⟨"T", "f.go", 3⟩ .error "m" (NewLogFields "" "" "" "" "") (by decide)⟩

/-- C9: LogCtx behaves exactly like Log and never consults the context:
its writes equal those of Log, for every pair of context values. -/
theorem logctx_ignores_context (ctx ctx2 : GoContext) (l : Logger)
    (env : Env) (lvl : LogLevel) (msg : String) (fields : LogFields) :
    LogCtx ctx l env lvl msg fields = logWrites l env lvl msg fields ∧
    LogCtx ctx l env lvl msg fields = LogCtx ctx2 l env lvl msg fields :=
  ⟨rfl, rfl⟩

/-- C10: each setter updates exactly its own field and leaves every
other field of the Logger unchanged, and no operation (setters included,
and Log itself) ever changes the name assigned at construction. -/
theorem setters_frame (l : Logger) (v : LogLevel) (o : Nat) (b : Bool)
    (fn : String → LogLevel → String → LogFields → String)
    (s : Sink) (env : Env) (lvl : LogLevel) (msg : String) (f : LogFields) :
    (SetLevel l v).level = v ∧ (SetLevel l v).name = l.name ∧
    (SetLevel l v).out = l.out ∧ (SetLevel l v).color = l.color ∧
    (SetLevel l v).formatter = l.formatter ∧
    (SetOutput l o).out = o ∧ (SetOutput l o).name = l.name ∧
    (SetOutput l o).level = l.level ∧ (SetOutput l o).color = l.color ∧
    (SetOutput l o).formatter = l.formatter ∧
    (SetColor l b).color = b ∧ (SetColor l b).name = l.name ∧
    (SetColor l b).level = l.level ∧ (SetColor l b).out = l.out ∧
    (SetColor l b).formatter = l.formatter ∧
    (SetFormatter l fn).formatter = fn ∧ (SetFormatter l fn).name = l.name ∧
    (SetFormatter l fn).level = l.level ∧ (SetFormatter l fn).out = l.out ∧
    (SetFormatter l fn).color = l.color ∧
    (runLog l s env lvl msg f).1.name = l.name :=
  ⟨rfl, rfl, rfl, rfl, rfl, rfl, rfl, rfl, rfl, rfl, rfl, rfl, rfl, rfl,
   rfl, rfl, rfl, rfl, rfl, rfl, rfl⟩

lemma hexDigit_ne_esc {k : Nat} (hk : k < 16) : hexDigit k ≠ '\x1b' := by
  have hall : ∀ m : Nat, m < 16 → hexDigit m ≠ '\x1b' := by decide
  exact hall k hk

set_option maxHeartbeats 1600000 in
lemma noEsc_goJsonEscapeChar (c : Char) : '\x1b' ∉ goJsonEscapeChar c := by
  unfold goJsonEscapeChar
  split_ifs with h1 h2 h3 h4 h5 h6 h7 h8 h9 h10 h11
  · decide
  · decide
  · decide
  · decide
  · decide
  · intro hm
    have hdiv : c.toNat / 16 < 16 := by omega
    have hmod : c.toNat % 16 < 16 := by omega
    simp only [List.mem_cons, List.not_mem_nil, or_false] at hm
    rcases hm with h | h | h | h | h | h
    · exact absurd h (by decide)
    · exact absurd h (by decide)
    · exact absurd h (by decide)
    · exact absurd h (by decide)
    · exact hexDigit_ne_esc hdiv h.symm
    · exact hexDigit_ne_esc hmod h.symm
  · decide
  · decide
  · decide
  · decide
  · decide
  · intro hm
    simp only [List.mem_cons, List.not_mem_nil, or_false] at hm
    exact h6 (hm ▸ (by decide : ('\x1b' : Char).toNat < 32))

lemma noEsc_goJsonString (s : String) : noEsc (goJsonString s) := by
  intro hm
  rw [goJsonString, data_mk] at hm
  rcases List.mem_cons.mp hm with h | h
  · exact absurd h (by decide)
  · rcases List.mem_append.mp h with h | h
    · obtain ⟨a, _, ha⟩ := List.mem_flatMap.mp h
      exact noEsc_goJsonEscapeChar a ha
    · simp only [List.mem_cons, List.not_mem_nil, or_false] at h
      exact absurd h (by decide)

lemma noEsc_jsonMember (p : String × String) : noEsc (jsonMember p) :=
  noEsc_append (noEsc_append (noEsc_goJsonString _) (by decide))
    (noEsc_goJsonString _)

lemma noEsc_jsonFields (f : LogFields) : noEsc (jsonFields f) := by
  unfold jsonFields
  refine noEsc_append (noEsc_append (by decide) ?_) (by decide)
  refine noEsc_joinSep "," _ (by decide) ?_
  intro x hx
  obtain ⟨p, _, rfl⟩ := List.mem_map.mp hx
  exact noEsc_jsonMember p

lemma noEsc_JSONFormatter (now : String) (lvl : LogLevel) (msg : String)
    (f : LogFields) : noEsc (JSONFormatter now lvl msg f) := by
  unfold JSONFormatter
  exact noEsc_append (noEsc_append (noEsc_append (noEsc_append (noEsc_append
    (noEsc_append (noEsc_append (noEsc_append (by decide)
      (noEsc_jsonFields f)) (by decide)) (noEsc_goJsonString _))
      (by decide)) (noEsc_goJsonString _)) (by decide))
      (noEsc_goJsonString _)) (by decide)

lemma splitSlash_chars : ∀ (l : List Char) (p : List Char),
    p ∈ splitSlash l → ∀ c ∈ p, c ∈ l := by
  intro l
  induction l with
  | nil =>
      intro p hp c hc
      simp only [splitSlash, List.mem_cons, List.not_mem_nil, or_false] at hp
      subst hp
      simp at hc
  | cons d ds ih =>
      intro p hp c hc
      by_cases hd : d = '/'
      · simp only [splitSlash, hd, if_true, List.mem_cons] at hp
        rcases hp with rfl | hp
        · simp at hc
        · exact List.mem_cons_of_mem _ (ih p hp c hc)
      · cases hsp : splitSlash ds with
        | nil =>
            simp only [splitSlash, hd, if_false, hsp, List.mem_cons,
              List.not_mem_nil, or_false] at hp
            subst hp
            simp only [List.mem_cons, List.not_mem_nil, or_false] at hc
            subst hc
            exact List.mem_cons_self _ _
        | cons q qs =>
            simp only [splitSlash, hd, if_false, hsp, List.mem_cons] at hp
            rcases hp with rfl | hp
            · rcases List.mem_cons.mp hc with rfl | hc2
              · exact List.mem_cons_self _ _
              · have hq : q ∈ splitSlash ds := by
                  rw [hsp]; exact List.mem_cons_self _ _
                exact List.mem_cons_of_mem _ (ih q hq c hc2)
            · have hps : p ∈ splitSlash ds := by
                rw [hsp]; exact List.mem_cons_of_mem _ hp
              exact List.mem_cons_of_mem _ (ih p hps c hc)

lemma shortenParts_chars (file : String) (p : List Char)
    (hp : p ∈ shortenParts file) : ∀ c ∈ p, c ∈ file.data := by
  intro c hc
  rw [shortenParts] at hp
  split at hp
  · exact splitSlash_chars _ p (List.mem_of_mem_drop hp) c hc
  · exact splitSlash_chars _ p hp c hc

lemma digitChar_ne_esc {m : Nat} (hm : m < 10) :
    Nat.digitChar m ≠ '\x1b' := by
  have hall : ∀ k : Nat, k < 10 → Nat.digitChar k ≠ '\x1b' := by decide
  exact hall m hm

lemma toDigitsCore_noEsc : ∀ (fuel n : Nat) (ds : List Char),
    (∀ c ∈ ds, c ≠ '\x1b') →
    ∀ c ∈ Nat.toDigitsCore 10 fuel n ds, c ≠ '\x1b' := by
  intro fuel
  induction fuel with
  | zero => intro n ds h c hc; exact h c hc
  | succ f ih =>
      intro n ds h c hc
      by_cases hz : n / 10 = 0
      · simp only [Nat.toDigitsCore, hz, if_true] at hc
        rcases List.mem_cons.mp hc with rfl | hc2
        · exact digitChar_ne_esc (Nat.mod_lt _ (by norm_num))
        · exact h c hc2
      · simp only [Nat.toDigitsCore, hz, if_false] at hc
        refine ih (n / 10) (Nat.digitChar (n % 10) :: ds) ?_ c hc
        intro x hx
        rcases List.mem_cons.mp hx with rfl | hx2
        · exact digitChar_ne_esc (Nat.mod_lt _ (by norm_num))
        · exact h x hx2

lemma noEsc_repr (n : Nat) : noEsc (Nat.repr n) := by
  intro hm
  have hd : (Nat.repr n).data = Nat.toDigitsCore 10 (n + 1) n [] := rfl
  rw [hd] at hm
  exact toDigitsCore_noEsc (n + 1) n [] (by simp) '\x1b' hm rfl

lemma noEsc_formatCaller (env : Env) (h : noEsc env.callerFile) :
    noEsc (formatCaller env) := by
  unfold formatCaller
  refine noEsc_append (noEsc_append ?_ (by decide)) (noEsc_repr _)
  refine noEsc_joinSep "/" _ (by decide) ?_
  intro x hx
  obtain ⟨p, hp, rfl⟩ := List.mem_map.mp hx
  intro hm
  rw [data_mk] at hm
  exact h (shortenParts_chars env.callerFile p hp _ hm)

lemma noEscFields_resolve (env : Env) (f : LogFields) (hf : noEscFields f)
    (hcf : noEsc env.callerFile) : noEscFields (resolveCaller env f) := by
  unfold resolveCaller
  split
  · exact ⟨hf.1, hf.2.1, hf.2.2.1, hf.2.2.2.1, hf.2.2.2.2.1,
      noEsc_formatCaller env hcf⟩
  · exact hf

lemma noEsc_replaceNewlines {msg : String} (h : noEsc msg) :
    noEsc (replaceNewlines msg) := by
  intro hm
  rw [replaceNewlines, data_mk] at hm
  obtain ⟨a, ha, hfa⟩ := List.mem_map.mp hm
  by_cases hn : a = '\n'
  · rw [if_pos hn] at hfa
    exact absurd hfa (by decide)
  · rw [if_neg hn] at hfa
    exact h (hfa ▸ ha)

lemma mem_ite_singleton {α : Type} {c : Prop} [Decidable c] {x p : α}
    (hp : p ∈ (if c then [x] else [])) : p = x := by
  split at hp
  · simpa using hp
  · simp at hp

lemma defaultPieces_valid (now msg : String) (lvl : LogLevel)
    (f : LogFields) (hnow : noEsc now) (hmsg : noEsc msg)
    (hf : noEscFields f) :
    ∀ p ∈ defaultPieces now lvl msg f, allParam p.1 ∧ noEsc p.2 := by
  intro p hp
  unfold defaultPieces at hp
  obtain ⟨hm, hpa, hst, hsz, hlt, hci⟩ := hf
  rcases List.mem_append.mp hp with hp1 | hpF
  · rcases List.mem_append.mp hp1 with hp2 | hpE
    · rcases List.mem_append.mp hp2 with hp3 | hpD
      · rcases List.mem_append.mp hp3 with hp4 | hpC
        · rcases List.mem_append.mp hp4 with hpA | hpB
          · simp only [List.mem_cons, List.not_mem_nil, or_false] at hpA
            rcases hpA with rfl | rfl
            · constructor
              · cases lvl <;> decide
              · cases lvl <;> decide
            · exact ⟨(by decide : allParam "97"), hnow⟩
          · unfold methodPathGroup at hpB
            have hx := mem_ite_singleton hpB
            subst hx
            exact ⟨(by decide : allParam "94"),
              noEsc_append (noEsc_append hm (by decide)) hpa⟩
        · unfold statusGroup at hpC
          have hx := mem_ite_singleton hpC
          subst hx
          exact ⟨(by decide : allParam "92"), hst⟩
      · unfold sizeGroup at hpD
        have hx := mem_ite_singleton hpD
        subst hx
        exact ⟨(by decide : allParam "93"), hsz⟩
    · unfold latencyGroup at hpE
      have hx := mem_ite_singleton hpE
      subst hx
      exact ⟨(by decide : allParam "95"), hlt⟩
  · simp only [List.mem_cons, List.not_mem_nil, or_false] at hpF
    rcases hpF with rfl | rfl | rfl | rfl
    · exact ⟨by decide, by decide⟩
    · exact ⟨(by decide : allParam "36"), hmsg⟩
    · exact ⟨by decide, by decide⟩
    · exact ⟨(by decide : allParam "94"), hci⟩

lemma strip_defaultFormatter (now msg : String) (lvl : LogLevel)
    (f : LogFields) (hnow : noEsc now) (hmsg : noEsc msg)
    (hf : noEscFields f) :
    stripColors (defaultFormatter now lvl msg f) =
      joinSep " " ((defaultPieces now lvl msg f).map Prod.snd) :=
  strip_joinSep _ (defaultPieces_valid now msg lvl f hnow hmsg hf)

lemma noEsc_strip_defaultFormatter (now msg : String) (lvl : LogLevel)
    (f : LogFields) (hnow : noEsc now) (hmsg : noEsc msg)
    (hf : noEscFields f) :
    noEsc (stripColors (defaultFormatter now lvl msg f)) := by
  rw [strip_defaultFormatter now msg lvl f hnow hmsg hf]
  refine noEsc_joinSep " " _ (by decide) ?_
  intro x hx
  obtain ⟨p, hp, rfl⟩ := List.mem_map.mp hx
  exact (defaultPieces_valid now msg lvl f hnow hmsg hf p hp).2

/-- C5 counterexample: with color disabled and the default formatter, a
message containing raw ESC characters leaves a complete ANSI escape
sequence in the written line. The strip step removes every match of the
rendered string, but the deletions splice remaining characters into a
new escape sequence (here the written line contains ESC LBRACKET m). -/
theorem color_disabled_escape_cex :
    (SetColor (NewLogger "app") false).color = false ∧
    (logWrites (SetColor (NewLogger "app") false) (Env.mk "T" "f.go" 3)
      .info "\x1b\x1b[m[m" (NewLogFields "" "" "" "" "")).any
        (fun line => hasCSI line.data) = true :=
  ⟨rfl, by decide⟩

/-- C5 amended: with color disabled, the written line is the rendered
string with every ANSI CSI match removed, and it contains no ESC
character at all (hence no ANSI escape sequence) for the JSON formatter
unconditionally (encoding/json escapes control characters), and for the
default formatter whenever the timestamp, the message, the six field
attributes and the caller file are ESC-free. -/
theorem color_disabled_no_escape (l : Logger) (env : Env) (lvl : LogLevel)
    (msg : String) (f : LogFields) (hcolor : l.color = false)
    (hlev : l.level.toNat ≤ lvl.toNat) :
    (l.formatter = JSONFormatter →
      ∀ line ∈ logWrites l env lvl msg f, noEsc line) ∧
    (l.formatter = defaultFormatter → noEsc env.now → noEsc msg →
      noEscFields f → noEsc env.callerFile →
      ∀ line ∈ logWrites l env lvl msg f, noEsc line) := by
  have hnl : ¬ (lvl.toNat < l.level.toNat) := not_lt.mpr hlev
  have hw : logWrites l env lvl msg f =
      [renderLine l env lvl msg f ++ "\n"] := by
    simp [logWrites, hnl]
  constructor
  · intro hfm line hline
    rw [hw] at hline
    simp only [List.mem_cons, List.not_mem_nil, or_false] at hline
    subst hline
    have hr : renderLine l env lvl msg f =
        stripColors (JSONFormatter env.now lvl (replaceNewlines msg)
          (resolveCaller env f)) := by
      simp [renderLine, hcolor, hfm]
    have hj : noEsc (JSONFormatter env.now lvl (replaceNewlines msg)
        (resolveCaller env f)) := noEsc_JSONFormatter _ _ _ _
    have hfix : stripColors (JSONFormatter env.now lvl (replaceNewlines msg)
        (resolveCaller env f)) =
        JSONFormatter env.now lvl (replaceNewlines msg)
          (resolveCaller env f) := String.ext (stripRun_noEsc_fix _ hj)
    rw [hr, hfix]
    exact noEsc_append hj (by decide)
  · intro hfm hnow hmsg hf hcf line hline
    rw [hw] at hline
    simp only [List.mem_cons, List.not_mem_nil, or_false] at hline
    subst hline
    have hr : renderLine l env lvl msg f =
        stripColors (defaultFormatter env.now lvl (replaceNewlines msg)
          (resolveCaller env f)) := by
      simp [renderLine, hcolor, hfm]
    rw [hr]
    exact noEsc_append (noEsc_strip_defaultFormatter env.now
      (replaceNewlines msg) lvl (resolveCaller env f) hnow
      (noEsc_replaceNewlines hmsg) (noEscFields_resolve env f hf hcf))
      (by decide)

/-- Witness for the amended C5 theorem at a concrete logger. -/
theorem color_disabled_no_escape_witness :
    (SetColor (NewLogger "w") false).color = false ∧
    (SetColor (NewLogger "w") false).level.toNat ≤ LogLevel.info.toNat ∧
    (((SetColor (NewLogger "w") false).formatter = JSONFormatter →
        ∀ line ∈ logWrites (SetColor (NewLogger "w") false)
          (Env.mk "T" "f.go" 3) .info "m" (NewLogFields "" "" "" "" ""),
          noEsc line) ∧
     ((SetColor (NewLogger "w") false).formatter = defaultFormatter →
        noEsc (Env.mk "T" "f.go" 3).now → noEsc "m" →
        noEscFields (NewLogFields "" "" "" "" "") →
        noEsc (Env.mk "T" "f.go" 3).callerFile →
        ∀ line ∈ logWrites (SetColor (NewLogger "w") false)
          (Env.mk "T" "f.go" 3) .info "m" (NewLogFields "" "" "" "" ""),
          noEsc line)) :=
  ⟨rfl, by decide,
    color_disabled_no_escape (SetColor (NewLogger "w") false)
      (Env.mk "T" "f.go" 3) .info "m" (NewLogFields "" "" "" "" "")
      rfl (by decide)⟩

lemma infix_colorWrap (code s : String) :
    s.data <:+: (colorWrap code s).data :=
  ⟨("\x1b[" ++ code ++ "m").data, ("\x1b[0m" : String).data,
    by simp [colorWrap, String.data_append]⟩

lemma mem_joinSep_within (sep : String) (xs : List String) (x : String)
    (hx : x ∈ xs) : x.data <:+: (joinSep sep xs).data := by
  induction xs with
  | nil => simp at hx
  | cons y ys ih =>
      cases ys with
      | nil =>
          simp only [List.mem_cons, List.not_mem_nil, or_false] at hx
          subst hx
          exact List.infix_refl _
      | cons z zs =>
          rcases List.mem_cons.mp hx with rfl | hx2
          · show x.data <:+: (x ++ sep ++ joinSep sep (z :: zs)).data
            rw [String.data_append, String.data_append, List.append_assoc]
            exact (List.prefix_append _ _).isInfix
          · have h2 := ih hx2
            show x.data <:+: (y ++ sep ++ joinSep sep (z :: zs)).data
            rw [String.data_append]
            exact h2.trans (List.suffix_append _ _).isInfix

lemma formatCaller_ne_empty (env : Env) : formatCaller env ≠ "" := by
  intro h
  have hd : (formatCaller env).data = [] := by rw [h]
  unfold formatCaller at hd
  rw [String.data_append, String.data_append] at hd
  obtain ⟨h1, _⟩ := List.append_eq_nil.mp hd
  obtain ⟨_, h4⟩ := List.append_eq_nil.mp h1
  exact absurd h4 (by decide)

lemma shortenParts_length (file : String) :
    (shortenParts file).length ≤ 3 := by
  rw [shortenParts]
  split
  · rw [List.length_drop]
    omega
  · omega

lemma callerInfo_infix_defaultFormatter (now msg : String) (lvl : LogLevel)
    (f : LogFields) :
    f.callerInfo.data <:+: (defaultFormatter now lvl msg f).data := by
  have hmem : colorWrap "94" f.callerInfo ∈
      (defaultPieces now lvl msg f).map (fun p => colorWrap p.1 p.2) := by
    refine List.mem_map.mpr ⟨("94", f.callerInfo), ?_, rfl⟩
    unfold defaultPieces
    refine List.mem_append.mpr (Or.inr ?_)
    simp
  exact (infix_colorWrap "94" f.callerInfo).trans
    (mem_joinSep_within " " _ _ hmem)

/-- C3: for a non-suppressed Log call with the default formatter, an
empty supplied callerInfo is replaced by the captured call site
(shortened path, colon, line number; the shortened path keeps at most
the last three slash-separated segments), that token is non-empty, and
the rendered string contains it; a non-empty supplied callerInfo passes
through to the formatter unchanged and the rendered string contains
exactly the supplied value. -/
theorem caller_info_resolution (l : Logger) (env : Env) (lvl : LogLevel)
    (msg : String) (f : LogFields) (hlev : l.level.toNat ≤ lvl.toNat)
    (hfm : l.formatter = defaultFormatter) :
    (f.callerInfo = "" →
      (resolveCaller env f).callerInfo = formatCaller env ∧
      formatCaller env ≠ "" ∧
      formatCaller env =
        joinSep "/" ((shortenParts env.callerFile).map
          (fun p => (⟨p⟩ : String))) ++ ":" ++ Nat.repr env.callerLine ∧
      (shortenParts env.callerFile).length ≤ 3 ∧
      (formatCaller env).data <:+:
        (l.formatter env.now lvl (replaceNewlines msg)
          (resolveCaller env f)).data) ∧
    (f.callerInfo ≠ "" →
      resolveCaller env f = f ∧
      f.callerInfo.data <:+:
        (l.formatter env.now lvl (replaceNewlines msg)
          (resolveCaller env f)).data) := by
  constructor
  · intro hci
    have hres : (resolveCaller env f).callerInfo = formatCaller env := by
      simp [resolveCaller, hci]
    refine ⟨hres, formatCaller_ne_empty env, rfl, shortenParts_length _, ?_⟩
    rw [hfm]
    have := callerInfo_infix_defaultFormatter env.now (replaceNewlines msg)
      lvl (resolveCaller env f)
    rwa [hres] at this
  · intro hci
    have hres : resolveCaller env f = f := by
      simp [resolveCaller, hci]
    refine ⟨hres, ?_⟩
    rw [hfm, hres]
    exact callerInfo_infix_defaultFormatter env.now (replaceNewlines msg)
      lvl f

/-- Witness for C3 at a concrete logger and environment. -/
theorem caller_info_resolution_witness :
    (NewLogger "app").level.toNat ≤ LogLevel.error.toNat ∧
    (NewLogger "app").formatter = defaultFormatter ∧
    ((((NewLogFields "" "" "" "" "").callerInfo = "" →
      (resolveCaller (Env.mk "T" "a/b/c/d.go" 9)
        (NewLogFields "" "" "" "" "")).callerInfo =
          formatCaller (Env.mk "T" "a/b/c/d.go" 9) ∧
      formatCaller (Env.mk "T" "a/b/c/d.go" 9) ≠ "" ∧
      formatCaller (Env.mk "T" "a/b/c/d.go" 9) =
        joinSep "/" ((shortenParts (Env.mk "T" "a/b/c/d.go" 9).callerFile).map
          (fun p => (⟨p⟩ : String))) ++ ":" ++
          Nat.repr (Env.mk "T" "a/b/c/d.go" 9).callerLine ∧
      (shortenParts (Env.mk "T" "a/b/c/d.go" 9).callerFile).length ≤ 3 ∧
      (formatCaller (Env.mk "T" "a/b/c/d.go" 9)).data <:+:
        ((NewLogger "app").formatter (Env.mk "T" "a/b/c/d.go" 9).now .error
          (replaceNewlines "m")
          (resolveCaller (Env.mk "T" "a/b/c/d.go" 9)
            (NewLogFields "" "" "" "" ""))).data) ∧
    ((NewLogFields "" "" "" "" "").callerInfo ≠ "" →
      resolveCaller (Env.mk "T" "a/b/c/d.go" 9)
        (NewLogFields "" "" "" "" "") = NewLogFields "" "" "" "" "" ∧
      (NewLogFields "" "" "" "" "").callerInfo.data <:+:
        ((NewLogger "app").formatter (Env.mk "T" "a/b/c/d.go" 9).now .error
          (replaceNewlines "m")
          (resolveCaller (Env.mk "T" "a/b/c/d.go" 9)
            (NewLogFields "" "" "" "" ""))).data))) :=
  ⟨by decide, rfl,
    caller_info_resolution (NewLogger "app") (Env.mk "T" "a/b/c/d.go" 9)
      .error "m" (NewLogFields "" "" "" "" "") (by decide) rfl⟩

lemma ite_singleton_ne_nil {α : Type} {c : Prop} [Decidable c] {x : α} :
    (if c then [x] else []) ≠ [] ↔ c := by
  split <;> simp_all

lemma containsInOrder_append_left (ts : List String) (a s : String)
    (h : containsInOrder ts s) : containsInOrder ts (a ++ s) := by
  cases ts with
  | nil => trivial
  | cons t ts2 =>
      obtain ⟨c, d, hcd, hrest⟩ := h
      exact ⟨a ++ c, d, by rw [hcd]; simp [String.append_assoc], hrest⟩

lemma containsInOrder_append_right (ts : List String) (s a : String)
    (h : containsInOrder ts s) : containsInOrder ts (s ++ a) := by
  induction ts generalizing s with
  | nil => trivial
  | cons t ts2 ih =>
      obtain ⟨c, d, hcd, hrest⟩ := h
      exact ⟨c, d ++ a, by rw [hcd]; simp [String.append_assoc], ih d hrest⟩

lemma containsInOrder_joinSep (ts xs : List String)
    (h : List.Sublist ts xs) : containsInOrder ts (joinSep " " xs) := by
  induction h with
  | slnil => trivial
  | @cons l1 l2 a h ih =>
      cases l2 with
      | nil =>
          have hn : l1 = [] := List.sublist_nil.mp h
          subst hn
          trivial
      | cons y ys =>
          show containsInOrder l1 (a ++ " " ++ joinSep " " (y :: ys))
          exact containsInOrder_append_left _ _ _ ih
  | @cons₂ l1 l2 a h ih =>
      cases l2 with
      | nil =>
          have hn : l1 = [] := List.sublist_nil.mp h
          subst hn
          exact ⟨"", "", by simp [joinSep], trivial⟩
      | cons y ys =>
          show containsInOrder (a :: l1) (a ++ " " ++ joinSep " " (y :: ys))
          refine ⟨"", " " ++ joinSep " " (y :: ys), ?_, ?_⟩
          · simp [String.append_assoc]
          · exact containsInOrder_append_left _ _ _ ih

/-- C4: the optional components of the default text line (method plus
path, status, size, latency) are present exactly when the corresponding
fields are non-empty (both method and path for the combined group); the
line is the space-join of the level tag, the timestamp, the optional
groups and the fixed trailer; and the Checkout scenario with color
disabled produces a line containing, in order, the INFO tag, the
timestamp, POST /api/checkout, 200 OK, 51KB, 120ms, the message and the
caller token. -/
theorem default_formatter_groups (now msg : String) (lvl : LogLevel)
    (f : LogFields) (l : Logger) (env : Env)
    (hcolor : l.color = false) (hfm : l.formatter = defaultFormatter)
    (hlev : l.level.toNat ≤ LogLevel.info.toNat)
    (hnow : noEsc env.now) (hcf : noEsc env.callerFile) :
    (methodPathGroup f ≠ [] ↔ (f.method ≠ "" ∧ f.path ≠ "")) ∧
    (statusGroup f ≠ [] ↔ f.status ≠ "") ∧
    (sizeGroup f ≠ [] ↔ f.size ≠ "") ∧
    (latencyGroup f ≠ [] ↔ f.latency ≠ "") ∧
    defaultFormatter now lvl msg f = joinSep " "
      (([(levelCode lvl, "[" ++ levelName lvl ++ "]"), ("97", now)]
        ++ methodPathGroup f ++ statusGroup f ++ sizeGroup f
        ++ latencyGroup f
        ++ [("97", "-"), ("36", msg), ("97", "-"),
            ("94", f.callerInfo)]).map (fun p => colorWrap p.1 p.2)) ∧
    (∀ line ∈ logWrites l env .info "Checkout completed"
        (NewLogFields "POST" "/api/checkout" "200 OK" "51KB" "120ms"),
      containsInOrder ["[INFO]", env.now, "POST /api/checkout", "200 OK",
        "51KB", "120ms", "Checkout completed", formatCaller env] line) := by
  refine ⟨by unfold methodPathGroup; exact ite_singleton_ne_nil,
    by unfold statusGroup; exact ite_singleton_ne_nil,
    by unfold sizeGroup; exact ite_singleton_ne_nil,
    by unfold latencyGroup; exact ite_singleton_ne_nil, rfl, ?_⟩
  intro line hline
  have hnl : ¬ (LogLevel.info.toNat < l.level.toNat) := not_lt.mpr hlev
  have hw : logWrites l env .info "Checkout completed"
      (NewLogFields "POST" "/api/checkout" "200 OK" "51KB" "120ms") =
      [renderLine l env .info "Checkout completed"
        (NewLogFields "POST" "/api/checkout" "200 OK" "51KB" "120ms")
        ++ "\n"] := by
    simp [logWrites, hnl]
  rw [hw] at hline
  simp only [List.mem_cons, List.not_mem_nil, or_false] at hline
  subst hline
  have hf2 : resolveCaller env
      (NewLogFields "POST" "/api/checkout" "200 OK" "51KB" "120ms") =
      LogFields.mk "POST" "/api/checkout" "200 OK" "51KB" "120ms"
        (formatCaller env) := by
    simp [resolveCaller, NewLogFields]
  have hm2 : replaceNewlines "Checkout completed" = "Checkout completed" := by
    decide
  have hr : renderLine l env .info "Checkout completed"
      (NewLogFields "POST" "/api/checkout" "200 OK" "51KB" "120ms") =
      stripColors (defaultFormatter env.now .info "Checkout completed"
        (LogFields.mk "POST" "/api/checkout" "200 OK" "51KB" "120ms"
          (formatCaller env))) := by
    simp [renderLine, hcolor, hfm, hf2, hm2]
  have hstrip := strip_defaultFormatter env.now "Checkout completed" .info
    (LogFields.mk "POST" "/api/checkout" "200 OK" "51KB" "120ms"
      (formatCaller env)) hnow (by decide)
    ⟨(by decide : noEsc "POST"), (by decide : noEsc "/api/checkout"),
      (by decide : noEsc "200 OK"), (by decide : noEsc "51KB"),
      (by decide : noEsc "120ms"), noEsc_formatCaller env hcf⟩
  have hplains : (defaultPieces env.now .info "Checkout completed"
      (LogFields.mk "POST" "/api/checkout" "200 OK" "51KB" "120ms"
        (formatCaller env))).map Prod.snd =
      ["[INFO]", env.now, "POST /api/checkout", "200 OK", "51KB", "120ms",
       "-", "Checkout completed", "-", formatCaller env] := by
    simp [defaultPieces, methodPathGroup, statusGroup, sizeGroup,
      latencyGroup, levelCode, levelName]
  rw [hr, hstrip, hplains]
  refine containsInOrder_append_right _ _ _ (containsInOrder_joinSep _ _ ?_)
  refine List.Sublist.cons₂ _ (List.Sublist.cons₂ _ (List.Sublist.cons₂ _
    (List.Sublist.cons₂ _ (List.Sublist.cons₂ _ (List.Sublist.cons₂ _
    (List.Sublist.cons _ (List.Sublist.cons₂ _ (List.Sublist.cons _
    (List.Sublist.refl _)))))))))

/-- Witness for C4 at concrete arguments. -/
theorem default_formatter_groups_witness :
    (SetColor (NewLogger "s") false).color = false ∧
    (SetColor (NewLogger "s") false).formatter = defaultFormatter ∧
    (SetColor (NewLogger "s") false).level.toNat ≤ LogLevel.info.toNat ∧
    noEsc (Env.mk "2025-06-14T12:30:25Z" "x/y/z.go" 42).now ∧
    noEsc (Env.mk "2025-06-14T12:30:25Z" "x/y/z.go" 42).callerFile ∧
    ((methodPathGroup (NewLogFields "a" "b" "" "" "") ≠ [] ↔
      ((NewLogFields "a" "b" "" "" "").method ≠ "" ∧
       (NewLogFields "a" "b" "" "" "").path ≠ "")) ∧
    (statusGroup (NewLogFields "a" "b" "" "" "") ≠ [] ↔
      (NewLogFields "a" "b" "" "" "").status ≠ "") ∧
    (sizeGroup (NewLogFields "a" "b" "" "" "") ≠ [] ↔
      (NewLogFields "a" "b" "" "" "").size ≠ "") ∧
    (latencyGroup (NewLogFields "a" "b" "" "" "") ≠ [] ↔
      (NewLogFields "a" "b" "" "" "").latency ≠ "") ∧
    defaultFormatter "N" .debug "m" (NewLogFields "a" "b" "" "" "") =
      joinSep " "
      (([(levelCode .debug, "[" ++ levelName .debug ++ "]"), ("97", "N")]
        ++ methodPathGroup (NewLogFields "a" "b" "" "" "")
        ++ statusGroup (NewLogFields "a" "b" "" "" "")
        ++ sizeGroup (NewLogFields "a" "b" "" "" "")
        ++ latencyGroup (NewLogFields "a" "b" "" "" "")
        ++ [("97", "-"), ("36", "m"), ("97", "-"),
            ("94", (NewLogFields "a" "b" "" "" "").callerInfo)]).map
          (fun p => colorWrap p.1 p.2)) ∧
    (∀ line ∈ logWrites (SetColor (NewLogger "s") false)
        (Env.mk "2025-06-14T12:30:25Z" "x/y/z.go" 42) .info
        "Checkout completed"
        (NewLogFields "POST" "/api/checkout" "200 OK" "51KB" "120ms"),
      containsInOrder ["[INFO]",
        (Env.mk "2025-06-14T12:30:25Z" "x/y/z.go" 42).now,
        "POST /api/checkout", "200 OK", "51KB", "120ms",
        "Checkout completed",
        formatCaller (Env.mk "2025-06-14T12:30:25Z" "x/y/z.go" 42)] line)) :=
  ⟨rfl, rfl, by decide, by decide, by decide,
    default_formatter_groups "N" "m" .debug (NewLogFields "a" "b" "" "" "")
      (SetColor (NewLogger "s") false)
      (Env.mk "2025-06-14T12:30:25Z" "x/y/z.go" 42)
      rfl rfl (by decide) (by decide) (by decide)⟩

example :
    parseEntry (JSONFormatter "T" .info "a\"b\nc"
      (NewLogFields "" "/p" "200" "" "")) =
    some ([("path", "/p"), ("status", "200")],
      [("level", "info"), ("message", "a\"b\nc"), ("timestamp", "T")]) := by
  decide

lemma isHexChar_hexDigit {k : Nat} (hk : k < 16) :
    isHexChar (hexDigit k) = true := by
  have hall : ∀ m : Nat, m < 16 → isHexChar (hexDigit m) = true := by decide
  exact hall k hk

lemma hexVal_hexDigit {k : Nat} (hk : k < 16) : hexVal (hexDigit k) = k := by
  have hall : ∀ m : Nat, m < 16 → hexVal (hexDigit m) = m := by decide
  exact hall k hk

lemma pjAux_quote (cs : List Char) :
    parseJStringAux ('"' :: cs) = some ([], cs) := by
  rw [parseJStringAux.eq_def]; simp

lemma pjAux_escq (cs : List Char) :
    parseJStringAux ('\\' :: '"' :: cs) =
      (parseJStringAux cs).map (fun r => ('"' :: r.1, r.2)) := by
  rw [parseJStringAux.eq_def]; simp

lemma pjAux_escb (cs : List Char) :
    parseJStringAux ('\\' :: '\\' :: cs) =
      (parseJStringAux cs).map (fun r => ('\\' :: r.1, r.2)) := by
  rw [parseJStringAux.eq_def]; simp

lemma pjAux_escn (cs : List Char) :
    parseJStringAux ('\\' :: 'n' :: cs) =
      (parseJStringAux cs).map (fun r => ('\n' :: r.1, r.2)) := by
  rw [parseJStringAux.eq_def]; simp

lemma pjAux_escr (cs : List Char) :
    parseJStringAux ('\\' :: 'r' :: cs) =
      (parseJStringAux cs).map (fun r => ('\x0d' :: r.1, r.2)) := by
  rw [parseJStringAux.eq_def]; simp

lemma pjAux_esct (cs : List Char) :
    parseJStringAux ('\\' :: 't' :: cs) =
      (parseJStringAux cs).map (fun r => ('\t' :: r.1, r.2)) := by
  rw [parseJStringAux.eq_def]; simp

lemma pjAux_escu (h1 h2 h3 h4 : Char) (cs : List Char)
    (hx1 : isHexChar h1 = true) (hx2 : isHexChar h2 = true)
    (hx3 : isHexChar h3 = true) (hx4 : isHexChar h4 = true) :
    parseJStringAux ('\\' :: 'u' :: h1 :: h2 :: h3 :: h4 :: cs) =
      (parseJStringAux cs).map (fun r =>
        (Char.ofNat (4096 * hexVal h1 + 256 * hexVal h2 +
          16 * hexVal h3 + hexVal h4) :: r.1, r.2)) := by
  rw [parseJStringAux.eq_def]; simp [hx1, hx2, hx3, hx4]

lemma pjAux_plain (c : Char) (cs : List Char) (h1 : ¬ c = '"')
    (h2 : ¬ c = '\\') :
    parseJStringAux (c :: cs) =
      (parseJStringAux cs).map (fun r => (c :: r.1, r.2)) := by
  rw [parseJStringAux.eq_def]; simp [h1, h2]

lemma parseJStringAux_flat : ∀ (l : List Char) (rest : List Char),
    parseJStringAux (l.flatMap goJsonEscapeChar ++ '"' :: rest) =
      some (l, rest) := by
  intro l
  induction l with
  | nil => intro rest; simp [pjAux_quote]
  | cons c l2 ih =>
      intro rest
      rw [List.flatMap_cons, List.append_assoc]
      by_cases h1 : c = '"'
      · subst h1
        rw [show goJsonEscapeChar '"' = ['\\', '"'] from by decide]
        simp only [List.cons_append, List.nil_append]
        rw [pjAux_escq, ih rest]
        rfl
      by_cases h2 : c = '\\'
      · subst h2
        rw [show goJsonEscapeChar '\\' = ['\\', '\\'] from by decide]
        simp only [List.cons_append, List.nil_append]
        rw [pjAux_escb, ih rest]
        rfl
      by_cases h3 : c = '\n'
      · subst h3
        rw [show goJsonEscapeChar '\n' = ['\\', 'n'] from by decide]
        simp only [List.cons_append, List.nil_append]
        rw [pjAux_escn, ih rest]
        rfl
      by_cases h4 : c = '\x0d'
      · subst h4
        rw [show goJsonEscapeChar '\x0d' = ['\\', 'r'] from by decide]
        simp only [List.cons_append, List.nil_append]
        rw [pjAux_escr, ih rest]
        rfl
      by_cases h5 : c = '\t'
      · subst h5
        rw [show goJsonEscapeChar '\t' = ['\\', 't'] from by decide]
        simp only [List.cons_append, List.nil_append]
        rw [pjAux_esct, ih rest]
        rfl
      by_cases h6 : c.toNat < 32
      · have he : goJsonEscapeChar c = ['\\', 'u', '0', '0',
            hexDigit (c.toNat / 16), hexDigit (c.toNat % 16)] := by
          simp only [goJsonEscapeChar, if_neg h1, if_neg h2, if_neg h3,
            if_neg h4, if_neg h5, if_pos h6]
        have hdiv : c.toNat / 16 < 16 := by omega
        have hmod : c.toNat % 16 < 16 := by omega
        have hchar : Char.ofNat (4096 * hexVal '0' + 256 * hexVal '0' +
            16 * hexVal (hexDigit (c.toNat / 16)) +
            hexVal (hexDigit (c.toNat % 16))) = c := by
          rw [hexVal_hexDigit hdiv, hexVal_hexDigit hmod,
            show hexVal '0' = 0 from by decide,
            show 4096 * 0 + 256 * 0 + 16 * (c.toNat / 16) + c.toNat % 16 =
              c.toNat from by omega]
          exact Char.ofNat_toNat c
        rw [he]
        simp only [List.cons_append, List.nil_append]
        rw [pjAux_escu '0' '0' (hexDigit (c.toNat / 16))
          (hexDigit (c.toNat % 16)) _ (by decide) (by decide)
          (isHexChar_hexDigit hdiv) (isHexChar_hexDigit hmod), ih rest]
        simp [hchar]
      by_cases h7 : c = '<'
      · subst h7
        rw [show goJsonEscapeChar '<' = ['\\', 'u', '0', '0', '3', 'c']
          from by decide]
        simp only [List.cons_append, List.nil_append]
        rw [pjAux_escu '0' '0' '3' 'c' _ (by decide) (by decide)
          (by decide) (by decide), ih rest]
        simp [show Char.ofNat (4096 * hexVal '0' + 256 * hexVal '0' +
          16 * hexVal '3' + hexVal 'c') = '<' from by decide]
      by_cases h8 : c = '>'
      · subst h8
        rw [show goJsonEscapeChar '>' = ['\\', 'u', '0', '0', '3', 'e']
          from by decide]
        simp only [List.cons_append, List.nil_append]
        rw [pjAux_escu '0' '0' '3' 'e' _ (by decide) (by decide)
          (by decide) (by decide), ih rest]
        simp [show Char.ofNat (4096 * hexVal '0' + 256 * hexVal '0' +
          16 * hexVal '3' + hexVal 'e') = '>' from by decide]
      by_cases h9 : c = '&'
      · subst h9
        rw [show goJsonEscapeChar '&' = ['\\', 'u', '0', '0', '2', '6']
          from by decide]
        simp only [List.cons_append, List.nil_append]
        rw [pjAux_escu '0' '0' '2' '6' _ (by decide) (by decide)
          (by decide) (by decide), ih rest]
        simp [show Char.ofNat (4096 * hexVal '0' + 256 * hexVal '0' +
          16 * hexVal '2' + hexVal '6') = '&' from by decide]
      by_cases h10 : c = ' '
      · subst h10
        rw [show goJsonEscapeChar ' ' = ['\\', 'u', '2', '0', '2', '8']
          from by decide]
        simp only [List.cons_append, List.nil_append]
        rw [pjAux_escu '2' '0' '2' '8' _ (by decide) (by decide)
          (by decide) (by decide), ih rest]
        simp [show Char.ofNat (4096 * hexVal '2' + 256 * hexVal '0' +
          16 * hexVal '2' + hexVal '8') = ' ' from by decide]
      by_cases h11 : c = ' '
      · subst h11
        rw [show goJsonEscapeChar ' ' = ['\\', 'u', '2', '0', '2', '9']
          from by decide]
        simp only [List.cons_append, List.nil_append]
        rw [pjAux_escu '2' '0' '2' '9' _ (by decide) (by decide)
          (by decide) (by decide), ih rest]
        simp [show Char.ofNat (4096 * hexVal '2' + 256 * hexVal '0' +
          16 * hexVal '2' + hexVal '9') = ' ' from by decide]
      · have he : goJsonEscapeChar c = [c] := by
          simp only [goJsonEscapeChar, if_neg h1, if_neg h2, if_neg h3,
            if_neg h4, if_neg h5, if_neg h6, if_neg h7, if_neg h8,
            if_neg h9, if_neg h10, if_neg h11]
        rw [he]
        simp only [List.cons_append, List.nil_append]
        rw [pjAux_plain c _ h1 h2, ih rest]
        rfl

lemma mk_data (s : String) : (⟨s.data⟩ : String) = s := rfl

lemma gj_data_append (s : String) (rest : List Char) :
    (goJsonString s).data ++ rest =
      '"' :: (s.data.flatMap goJsonEscapeChar ++ '"' :: rest) := by
  rw [goJsonString, data_mk]
  simp [List.append_assoc]

lemma parseJString_gj (s : String) (rest : List Char) :
    parseJString ('"' :: (s.data.flatMap goJsonEscapeChar ++ '"' :: rest)) =
      some (s, rest) := by
  rw [parseJString.eq_def]
  simp [parseJStringAux_flat, mk_data]

lemma parseMembers_render : ∀ (ms : List (String × String)) (fuel : Nat)
    (rest : List Char), ms.length ≤ fuel →
    parseMembers fuel
      ((joinSep "," (ms.map jsonMember)).data ++ '\x7d' :: rest) =
      some (ms, rest) := by
  intro ms
  induction ms with
  | nil =>
      intro fuel rest _
      rw [show (joinSep "," (([] : List (String × String)).map jsonMember)).data
        = [] from rfl, List.nil_append, parseMembers.eq_def]
      simp
  | cons p ms2 ih =>
      intro fuel rest hlen
      cases fuel with
      | zero => simp at hlen
      | succ fuel =>
          have hlen2 : ms2.length ≤ fuel := by
            simp at hlen; omega
          cases ms2 with
          | nil =>
              have hshape : (joinSep ","
                  (([p] : List (String × String)).map jsonMember)).data ++
                  '\x7d' :: rest =
                  '"' :: (p.1.data.flatMap goJsonEscapeChar ++ '"' ::
                    (':' :: ('"' :: (p.2.data.flatMap goJsonEscapeChar ++
                      '"' :: ('\x7d' :: rest))))) := by
                show (jsonMember p).data ++ '\x7d' :: rest = _
                rw [jsonMember, String.data_append, String.data_append,
                  show ((":" : String)).data = [':'] from rfl]
                simp only [List.append_assoc, List.cons_append,
                  List.nil_append]
                rw [gj_data_append, gj_data_append]
              rw [hshape, parseMembers.eq_def]
              simp [parseJString_gj]
          | cons q ms3 =>
              have hshape : (joinSep ","
                  ((p :: q :: ms3).map jsonMember)).data ++ '\x7d' :: rest =
                  '"' :: (p.1.data.flatMap goJsonEscapeChar ++ '"' ::
                    (':' :: ('"' :: (p.2.data.flatMap goJsonEscapeChar ++
                      '"' :: (',' :: ((joinSep ","
                        ((q :: ms3).map jsonMember)).data ++
                        '\x7d' :: rest)))))) := by
                show (jsonMember p ++ "," ++
                  joinSep "," ((q :: ms3).map jsonMember)).data ++
                  '\x7d' :: rest = _
                rw [String.data_append, String.data_append, jsonMember,
                  String.data_append, String.data_append,
                  show ((":" : String)).data = [':'] from rfl,
                  show (("," : String)).data = [','] from rfl]
                simp only [List.append_assoc, List.cons_append,
                  List.nil_append]
                rw [gj_data_append, gj_data_append]
              rw [hshape, parseMembers.eq_def]
              have ihq := ih fuel rest hlen2
              simp only [List.map_cons] at ihq
              simp [parseJString_gj, ihq]

/-- C2: the JSON formatter output parses back (by the recursive-descent
JSON parser above, which undoes the escaping of encoding/json) into an
object whose first member is the key fields holding exactly the declared
non-empty field attributes in declaration order, followed by the members
level (the lowercase level name), message (the supplied message) and
timestamp (the clock reading); and membership in the fields object is
exactly membership among the declared pairs with a non-empty value. -/
theorem json_formatter_shape (now : String) (lvl : LogLevel) (msg : String)
    (f : LogFields) :
    parseEntry (JSONFormatter now lvl msg f) =
      some (presentFields f,
        [("level", lvl.str), ("message", msg), ("timestamp", now)]) ∧
    (∀ k v, ((k, v) ∈ presentFields f ↔
      ((k, v) ∈ declaredPairs f ∧ v ≠ ""))) := by
  constructor
  · have hdata : (JSONFormatter now lvl msg f).data =
        '\x7b' :: '"' :: (("fields" : String).data.flatMap goJsonEscapeChar
          ++ '"' :: (':' :: '\x7b' ::
          ((joinSep "," ((presentFields f).map jsonMember)).data ++
          '\x7d' :: (',' :: ((joinSep ","
            (([("level", lvl.str), ("message", msg), ("timestamp", now)] :
              List (String × String)).map jsonMember)).data ++
            ['\x7d']))))) := by
      rw [JSONFormatter, jsonFields]
      simp only [List.map_cons, List.map_nil, joinSep, jsonMember]
      simp only [String.data_append]
      rw [show (['f', 'i', 'e', 'l', 'd', 's'] : List Char).flatMap
            goJsonEscapeChar = ['f', 'i', 'e', 'l', 'd', 's'] from by decide,
        show (goJsonString "level").data =
          ['"', 'l', 'e', 'v', 'e', 'l', '"'] from by decide,
        show (goJsonString "message").data =
          ['"', 'm', 'e', 's', 's', 'a', 'g', 'e', '"'] from by decide,
        show (goJsonString "timestamp").data =
          ['"', 't', 'i', 'm', 'e', 's', 't', 'a', 'm', 'p', '"']
          from by decide]
      simp [List.append_assoc]
    have hlenP : (presentFields f).length ≤ 7 :=
      le_trans (List.length_filter_le _ _) (by simp [declaredPairs])
    have hm1 := fun rest => parseMembers_render (presentFields f) 7 rest hlenP
    have hm2 := parseMembers_render
      [("level", lvl.str), ("message", msg), ("timestamp", now)] 4 []
      (by simp)
    simp only [List.map_cons, List.map_nil] at hm2
    have hjf := fun rest => parseJString_gj "fields" rest
    simp only [show ("fields" : String).data = ['f', 'i', 'e', 'l', 'd', 's']
        from rfl, List.flatMap_cons, List.flatMap_nil,
      show goJsonEscapeChar 'f' = ['f'] from by decide,
      show goJsonEscapeChar 'i' = ['i'] from by decide,
      show goJsonEscapeChar 'e' = ['e'] from by decide,
      show goJsonEscapeChar 'l' = ['l'] from by decide,
      show goJsonEscapeChar 'd' = ['d'] from by decide,
      show goJsonEscapeChar 's' = ['s'] from by decide,
      List.cons_append, List.nil_append, List.append_nil] at hjf
    rw [parseEntry.eq_def, hdata]
    simp [hjf, hm1, hm2,
      show goJsonEscapeChar 'f' = ['f'] from by decide,
      show goJsonEscapeChar 'i' = ['i'] from by decide,
      show goJsonEscapeChar 'e' = ['e'] from by decide,
      show goJsonEscapeChar 'l' = ['l'] from by decide,
      show goJsonEscapeChar 'd' = ['d'] from by decide,
      show goJsonEscapeChar 's' = ['s'] from by decide]
  · intro k v
    simp only [presentFields, List.mem_filter, decide_eq_true_eq]
